import Mathlib

/-!
Verification of the Portfolio-Ai-Backend repository (src/rag.py, src/main.py)
against its natural-language specification.

Texts are modelled as `List Char` (Python `str` indexing/slicing is by code
point, as is `List Char`).  Machine-checked definitions are shallow embeddings
of the Python source; each definition cites the function it embeds.
-/

abbrev Str := List Char

/-- Python `str.strip()` whitespace class, restricted to the ASCII whitespace
characters (space, tab, newline, carriage return, vertical tab, form feed). -/
def isPySpace (c : Char) : Bool :=
  c = ' ' || c = '\t' || c = '\n' || c = '\r' || c = '\x0b' || c = '\x0c'

/-- Python `s.strip()`: drop leading and trailing whitespace. -/
def pyStrip (s : Str) : Str :=
  ((s.dropWhile isPySpace).reverse.dropWhile isPySpace).reverse

/-- Python `s[i:e]` for `0 ≤ i ≤ e` (slice of a string). -/
def pySlice (s : Str) (i e : Nat) : Str :=
  (s.drop i).take (e - i)

/-- Character class of the token regex `[A-Za-z0-9_]` in `rag._token_re`. -/
def isWordChar (c : Char) : Bool :=
  ('A' ≤ c && c ≤ 'Z') || ('a' ≤ c && c ≤ 'z') || ('0' ≤ c && c ≤ '9') || c = '_'

/-- ASCII lower-casing; `str.lower()` agrees with this on the `[A-Za-z0-9_]`
tokens produced by the regex, which are the only inputs it receives. -/
def pyLower (c : Char) : Char :=
  if 'A' ≤ c && c ≤ 'Z' then Char.ofNat (c.toNat + 32) else c

/-- Helper for `tokenize`: scan the text, accumulating the current maximal run
of word characters (in reverse) in `run`; emit a lower-cased token whenever a
run ends.  This realises `_token_re.findall` followed by `t.lower()`. -/
def tokenizeGo (run : Str) : Str → List Str
  | [] => if run = [] then [] else [run.reverse.map pyLower]
  | c :: cs =>
    if isWordChar c then tokenizeGo (c :: run) cs
    else if run = [] then tokenizeGo [] cs
    else run.reverse.map pyLower :: tokenizeGo [] cs

/-- `rag._tokenize` (src/rag.py lines 21–22): lower-cased maximal runs of
`[A-Za-z0-9_]` characters. -/
def tokenize (s : Str) : List Str := tokenizeGo [] s

/-- The `while` loop of `rag.chunk_text` (src/rag.py lines 79–90), with the
loop's termination measure made explicit as `fuel`; `none` means the fuel ran
out before the loop finished (shown impossible for fuel > length below).
Python `max(0, end - overlap)` is `Nat` truncated subtraction `e - ov`. -/
def chunkLoop (text : Str) (cs ov : Nat) : Nat → Nat → Option (List Str)
  | 0, _ => none
  | fuel + 1, i =>
    let n := text.length
    if i < n then
      let e := min n (i + cs)
      let chunk := pyStrip (pySlice text i e)
      if n ≤ e then
        some (if chunk = [] then [] else [chunk])
      else
        match chunkLoop text cs ov fuel (e - ov) with
        | none => none
        | some rest => some (if chunk = [] then rest else chunk :: rest)
    else
      some []

/-- The parameter clamping of `rag.chunk_text` (src/rag.py lines 74–77), for
`chunk_size > 0`: negative overlap becomes 0; overlap ≥ chunk_size becomes
`max(0, chunk_size // 4)` (floor division). Returns the (size, overlap) pair
actually used by the loop, as naturals. -/
def clampParams (chunk_size overlap : Int) : Nat × Nat :=
  let ov0 : Int := if overlap < 0 then 0 else overlap
  let cs : Nat := chunk_size.toNat
  let ov : Nat := if chunk_size ≤ ov0 then cs / 4 else ov0.toNat
  (cs, ov)

/-- `rag.chunk_text` (src/rag.py lines 64–90). The Python defaults are
`chunk_size=1100`, `overlap=180`. -/
def chunk_text (text : Str) (chunk_size overlap : Int) : List Str :=
  if text = [] then []
  else if chunk_size ≤ 0 then []
  else
    let p := clampParams chunk_size overlap
    (chunkLoop text p.1 p.2 (text.length + 1) 0).getD []

/-- The sequence of untrimmed windows `[i, e)` taken by the `chunk_text` loop;
it depends on the text only through its length `n`.  Same control flow as
`chunkLoop`, recording every window instead of the trimmed non-empty chunks. -/
def chunkWindows (n cs ov : Nat) : Nat → Nat → List (Nat × Nat)
  | 0, _ => []
  | fuel + 1, i =>
    if i < n then
      let e := min n (i + cs)
      if n ≤ e then [(i, e)]
      else (i, e) :: chunkWindows n cs ov fuel (e - ov)
    else []

/-- `rag.RagChunk` (src/rag.py lines 25–29). -/
structure RagChunk where
  id : Str
  source : Str
  text : Str
deriving DecidableEq

/-- `rag.RagIndex` state (src/rag.py lines 32–35): the chunk list and the
tokenized corpus handed to `BM25Okapi` at construction time.  The BM25 model
itself is third-party (`rank_bm25`); it enters `retrieve` as an abstract
scoring function over this corpus. -/
structure RagIndex where
  chunks : List RagChunk
  tokenized : List (List Str)
deriving DecidableEq

/-- The `sorted(enumerate(scores), key=lambda x: x[1], reverse=True)[:top_k]`
step followed by the `score <= 0` filter of `RagIndex.retrieve`
(src/rag.py lines 44–48), on (index, score) pairs.  Python `sorted` is a
stable sort; `List.mergeSort` is stable with the comparison
`le a b := b.2 ≤ a.2` (descending by score only), matching `reverse=True`. -/
def retrieveRanked (scores : List ℚ) (top_k : Nat) : List (Nat × ℚ) :=
  (((scores.enum).mergeSort (fun a b => decide (b.2 ≤ a.2))).take top_k).filter
    (fun p => !decide (p.2 ≤ 0))

/-- `rag.RagIndex.retrieve` (src/rag.py lines 37–50).  `bm25` abstracts
`BM25Okapi(corpus).get_scores` (corpus → query tokens → one score per doc);
`top_k` is the requested result count (a natural: `[:top_k]` is `take`). -/
def RagIndex.retrieve (bm25 : List (List Str) → List Str → List ℚ)
    (idx : RagIndex) (query : Str) (top_k : Nat) : List (RagChunk × ℚ) :=
  if idx.chunks = [] then []
  else
    let q := tokenize query
    if q = [] then []
    else
      let scores := bm25 idx.tokenized q
      (retrieveRanked scores top_k).map
        (fun p => (idx.chunks.getD p.1 ⟨[], [], []⟩, p.2))

/-- The pure core of `rag.build_index_from_dir` (src/rag.py lines 93–111):
`docs` is the name-sorted list of (file name, extracted text) pairs produced
by `load_pdf_text` over the directory; each document is chunked, chunk `j` of
file `name` gets id `f"{name}:{j}"`, and the tokenized corpus is built in the
same loop by tokenizing each chunk. -/
def build_index_from_docs (docs : List (Str × Str)) (chunk_size overlap : Int) :
    RagIndex :=
  let chunks := docs.flatMap (fun d =>
    ((chunk_text d.2 chunk_size overlap).enum).map (fun jc =>
      RagChunk.mk (d.1 ++ ':' :: (Nat.repr jc.1).toList) d.1 jc.2))
  ⟨chunks, chunks.map (fun c => tokenize c.text)⟩

/-- On-disk index snapshot: the parsed contents of `chunks.json` and
`tokens.json`.  JSON (de)serialisation of these string structures is the
standard library's and is modelled as the identity on the parsed values. -/
structure SavedIndex where
  chunksJson : List RagChunk
  tokensJson : List (List Str)
deriving DecidableEq

/-- `rag.save_index` (src/rag.py lines 118–130): writes the chunk payload
(id, source, text per chunk) and a token file re-tokenized from the stored
text ("Rebuild tokenized corpus from stored text for portability"). -/
def save_index (index : RagIndex) : SavedIndex :=
  let chunks_payload := index.chunks.map (fun c => RagChunk.mk c.id c.source c.text)
  ⟨chunks_payload, chunks_payload.map (fun c => tokenize c.text)⟩

/-- `rag.load_index` (src/rag.py lines 133–144) in the case where both files
exist: rebuild the chunk list from `chunks.json` and construct the index from
the persisted token lists. -/
def load_index (s : SavedIndex) : RagIndex :=
  ⟨s.chunksJson.map (fun c => RagChunk.mk c.id c.source c.text), s.tokensJson⟩

/-- Python truthiness of an `Optional[str]`: `None` and `""` are falsy. -/
def pyTruthy (x : Option String) : Bool :=
  match x with
  | none => false
  | some s => !(s == "")

/-- `hmac.compare_digest` on two `str` values: functionally, string equality
(the constant-time execution of the library primitive is a timing property,
outside this functional model). -/
def compare_digest (a b : String) : Bool := a == b

/-- An `HTTPException(status_code, detail)` raised by a guard. -/
structure HttpError where
  status : Nat
  detail : String
deriving DecidableEq

/-- `main._admin_guard` (src/main.py lines 81–85), with the configured
`ADMIN_TOKEN` passed explicitly: `if not x_admin_token` → 401, else a failed
`hmac.compare_digest(x_admin_token, ADMIN_TOKEN)` → 403, else proceed. -/
def admin_guard (ADMIN_TOKEN : String) (x_admin_token : Option String) :
    Except HttpError Unit :=
  if !pyTruthy x_admin_token then
    .error ⟨401, "Missing X-Admin-Token"⟩
  else if !compare_digest (x_admin_token.getD "") ADMIN_TOKEN then
    .error ⟨403, "Invalid admin token"⟩
  else
    .ok ()

/-- `main._rebuild_index` (src/main.py lines 151–156) acting on the
process-wide `_rag_index` reference.  `build` abstracts
`build_index_from_dir(pdf_dir)` (PDF enumeration, extraction, chunking,
index construction) and `save` abstracts `save_index(idx, storage_dir)`;
either may raise, modelled as `Except`.  A raise propagates out of the
background task before the `_rag_index = idx` assignment runs, so the
current reference is returned unchanged. -/
def rebuild_index (build : Except String RagIndex)
    (save : RagIndex → Except String Unit)
    (current : Option RagIndex) : Option RagIndex :=
  match build with
  | .error _ => current
  | .ok idx =>
    match save idx with
    | .error _ => current
    | .ok _ => some idx

/-- `main.Citation` (src/main.py lines 57–60), with the excerpt kept as a
character list. -/
structure Citation where
  source : Str
  chunk_id : Str
  excerpt : Str
deriving DecidableEq

/-- One entry of the `retrieved` list built in `main.chat`
(src/main.py lines 232–239): source, chunk id and full chunk text. -/
structure RetrievedItem where
  source : Str
  chunk_id : Str
  text : Str
deriving DecidableEq

/-- The citation construction of `main.chat` (src/main.py lines 268–275):
`item["text"][:220] + ("..." if len(item["text"]) > 220 else "")` over
`retrieved[:4]`. -/
def chat_citations (retrieved : List RetrievedItem) : List Citation :=
  (retrieved.take 4).map (fun item =>
    ⟨item.source, item.chunk_id,
      item.text.take 220 ++ (if 220 < item.text.length then "...".toList else [])⟩)

/-- One server-sent event emitted by `main.chat`'s `event_generator`: the
payload of one `data: ...` line (`type` ∈ citations/content/error, or the
`[DONE]` sentinel). -/
inductive SseEvent where
  | citations (cs : List Citation)
  | content (s : String)
  | done
  | error (detail : String)
deriving DecidableEq

/-- `main.chat.event_generator` (src/main.py lines 277–295), as the list of
events it yields.  The upstream streaming call is abstracted by what it
delivers before finishing: `streamed` is the per-chunk
`choices[0].delta.content` of each received chunk (`none` for a chunk with no
choices or no content — the code also skips falsy, i.e. empty, content), and
`failure = some e` means the upstream call raised (possibly before delivering
anything), which the `except` arm turns into an error event in place of the
`[DONE]` sentinel. -/
def event_generator (cits : List Citation) (streamed : List (Option String))
    (failure : Option String) : List SseEvent :=
  SseEvent.citations cits ::
    (streamed.filterMap (fun c =>
      match c with
      | some s => if s == "" then none else some (SseEvent.content s)
      | none => none)) ++
    (match failure with
     | none => [SseEvent.done]
     | some e => [SseEvent.error e])

theorem clampParams_fst (chunk_size overlap : Int) :
    (clampParams chunk_size overlap).1 = chunk_size.toNat := rfl

theorem clampParams_snd_lt (chunk_size overlap : Int) (h : 0 < chunk_size) :
    (clampParams chunk_size overlap).2 < (clampParams chunk_size overlap).1 := by
  unfold clampParams
  dsimp only
  by_cases hov : overlap < 0
  · simp only [if_pos hov, show ¬(chunk_size ≤ (0 : Int)) by omega, if_false]
    omega
  · simp only [if_neg hov]
    by_cases hle : chunk_size ≤ overlap
    · simp only [if_pos hle]
      exact Nat.div_lt_self (by omega) (by omega)
    · simp only [if_neg hle]
      omega

theorem chunkLoop_isSome (text : Str) (cs ov : Nat) (_hcs : 0 < cs) (hov : ov < cs) :
    ∀ fuel i : Nat, text.length - i < fuel → (chunkLoop text cs ov fuel i).isSome := by
  intro fuel
  induction fuel with
  | zero => intro i h; omega
  | succ fuel ih =>
    intro i h
    rw [chunkLoop]
    by_cases hin : i < text.length
    · simp only [hin, if_true]
      by_cases he : text.length ≤ min text.length (i + cs)
      · simp [he]
      · simp only [he, if_false]
        have hrec := ih (min text.length (i + cs) - ov) (by omega)
        cases hx : chunkLoop text cs ov fuel (min text.length (i + cs) - ov) with
        | none => rw [hx] at hrec; simp at hrec
        | some rest => simp
    · simp [hin]

/-- Claim C5: `chunk_text` terminates on every input: for every text and every
integer `chunk_size > 0` and any `overlap` (after the clamping of
src/rag.py lines 74–77, which guarantees the used overlap is below the chunk
size), the loop finishes within `length + 1` iterations — its window start
strictly advances each iteration; for `chunk_size ≤ 0` the loop is never
entered (C4).  No combination of inputs loops forever. -/
theorem chunk_text_terminates (text : Str) (chunk_size overlap : Int)
    (h : 0 < chunk_size) :
    (chunkLoop text (clampParams chunk_size overlap).1
      (clampParams chunk_size overlap).2 (text.length + 1) 0).isSome :=
  chunkLoop_isSome text _ _ (by rw [clampParams_fst]; omega)
    (clampParams_snd_lt _ _ h) _ 0 (by omega)

theorem chunk_text_terminates_witness :
    (0 : Int) < 1 ∧
      (chunkLoop "ab".toList (clampParams 1 5).1 (clampParams 1 5).2
        ("ab".toList.length + 1) 0).isSome :=
  ⟨by norm_num, chunk_text_terminates "ab".toList 1 5 (by norm_num)⟩

/-- Claim C4: `chunk_text` produces no chunks on empty text or on `chunk_size ≤ 0`;
a negative overlap behaves as overlap 0; and when `overlap ≥ chunk_size` the
loop is run with overlap `chunk_size // 4` (floor division by four). -/
theorem chunk_text_degenerate :
    (∀ chunk_size overlap : Int, chunk_text [] chunk_size overlap = []) ∧
    (∀ (text : Str) (chunk_size overlap : Int), chunk_size ≤ 0 →
      chunk_text text chunk_size overlap = []) ∧
    (∀ (text : Str) (chunk_size overlap : Int), overlap < 0 →
      chunk_text text chunk_size overlap = chunk_text text chunk_size 0) ∧
    (∀ (text : Str) (chunk_size overlap : Int), 0 < chunk_size →
      chunk_size ≤ overlap →
      chunk_text text chunk_size overlap =
        (chunkLoop text chunk_size.toNat (chunk_size.toNat / 4)
          (text.length + 1) 0).getD []) := by
  refine ⟨?_, ?_, ?_, ?_⟩
  · intro cs ov
    simp [chunk_text]
  · intro t cs ov h
    simp [chunk_text, h]
  · intro t cs ov h
    have hcl : clampParams cs ov = clampParams cs 0 := by
      unfold clampParams
      simp [h]
    simp only [chunk_text, hcl]
  · intro t cs ov h1 h2
    have hcl : clampParams cs ov = (cs.toNat, cs.toNat / 4) := by
      unfold clampParams
      simp [show ¬(ov < 0) by omega, h2]
    by_cases ht : t = []
    · subst ht
      simp [chunk_text, chunkLoop]
    · simp only [chunk_text, ht, if_false, show ¬(cs ≤ 0) by omega, hcl]

theorem chunk_text_degenerate_witness :
    chunk_text [] 7 2 = [] ∧
    ((-3 : Int) ≤ 0 ∧ chunk_text "ab".toList (-3) 2 = []) ∧
    ((-2 : Int) < 0 ∧
      chunk_text "abcdefghij".toList 4 (-2) = chunk_text "abcdefghij".toList 4 0) ∧
    ((0 : Int) < 4 ∧ (4 : Int) ≤ 9 ∧
      chunk_text "abcdefghij".toList 4 9 =
        (chunkLoop "abcdefghij".toList (Int.toNat 4) (Int.toNat 4 / 4)
          ("abcdefghij".toList.length + 1) 0).getD []) :=
  ⟨chunk_text_degenerate.1 7 2,
   ⟨by norm_num, chunk_text_degenerate.2.1 _ _ 2 (by norm_num)⟩,
   ⟨by norm_num, chunk_text_degenerate.2.2.1 _ _ _ (by norm_num)⟩,
   ⟨by norm_num, by norm_num,
    chunk_text_degenerate.2.2.2 _ _ _ (by norm_num) (by norm_num)⟩⟩

/-- Claim C7: a rebuild that raises — whether while building (PDF enumeration,
extraction, index construction) or while persisting — leaves the process-wide
index reference unchanged; only a fully successful build-and-save replaces
it. -/
theorem rebuild_index_spec (build : Except String RagIndex)
    (save : RagIndex → Except String Unit) (current : Option RagIndex) :
    (∀ e, build = .error e → rebuild_index build save current = current) ∧
    (∀ idx e, build = .ok idx → save idx = .error e →
      rebuild_index build save current = current) ∧
    (∀ idx, build = .ok idx → save idx = .ok () →
      rebuild_index build save current = some idx) := by
  refine ⟨?_, ?_, ?_⟩
  · intro e h
    simp [rebuild_index, h]
  · intro idx e h1 h2
    simp [rebuild_index, h1, h2]
  · intro idx h1 h2
    simp [rebuild_index, h1, h2]

theorem rebuild_index_spec_witness :
    rebuild_index (Except.error "corrupt pdf") (fun _ => Except.ok ())
      (some ⟨[], []⟩) = some ⟨[], []⟩ ∧
    rebuild_index (Except.ok ⟨[], []⟩) (fun _ => Except.error "disk full")
      none = none :=
  ⟨(rebuild_index_spec _ _ _).1 "corrupt pdf" rfl,
   (rebuild_index_spec _ _ _).2.1 ⟨[], []⟩ "disk full" rfl rfl⟩

theorem event_contents_shape (streamed : List (Option String)) :
    ∀ x ∈ streamed.filterMap (fun c =>
      match c with
      | some s => if s == "" then none else some (SseEvent.content s)
      | none => none), ∃ s, x = SseEvent.content s := by
  intro x hx
  rw [List.mem_filterMap] at hx
  obtain ⟨a, _, hfa⟩ := hx
  match a with
  | none => simp at hfa
  | some s =>
    by_cases hs : s == ""
    · simp [hs] at hfa
    · simp [hs] at hfa
      exact ⟨s, hfa.symm⟩

/-- Claim C8: the first streamed event is always the citations event (so it
precedes every content fragment); with no upstream failure the stream ends
with the `[DONE]` sentinel and carries no error event; if the upstream call
raises, the stream ends with an error event carrying the failure description
and the sentinel is never emitted. -/
theorem event_generator_spec (cits : List Citation)
    (streamed : List (Option String)) (failure : Option String) :
    (event_generator cits streamed failure).head? =
      some (SseEvent.citations cits) ∧
    (failure = none →
      (event_generator cits streamed failure).getLast? = some SseEvent.done ∧
      ∀ d, SseEvent.error d ∉ event_generator cits streamed failure) ∧
    (∀ e, failure = some e →
      (event_generator cits streamed failure).getLast? =
        some (SseEvent.error e) ∧
      SseEvent.done ∉ event_generator cits streamed failure) := by
  refine ⟨rfl, ?_, ?_⟩
  · intro hf
    subst hf
    constructor
    · show (SseEvent.citations cits :: (_ ++ [SseEvent.done])).getLast? = _
      rw [← List.cons_append, List.getLast?_concat]
    · intro d hd
      rcases List.mem_cons.mp hd with h | h
      · exact absurd h (by simp)
      · rcases List.mem_append.mp h with h | h
        · obtain ⟨s, hs⟩ := event_contents_shape streamed _ h
          simp at hs
        · simp at h
  · intro e hf
    subst hf
    constructor
    · show (SseEvent.citations cits :: (_ ++ [SseEvent.error e])).getLast? = _
      rw [← List.cons_append, List.getLast?_concat]
    · intro hd
      rcases List.mem_cons.mp hd with h | h
      · exact absurd h (by simp)
      · rcases List.mem_append.mp h with h | h
        · obtain ⟨s, hs⟩ := event_contents_shape streamed _ h
          simp at hs
        · simp at h

theorem event_generator_spec_witness :
    (event_generator [] [some "hi", none, some ""] none).head? =
      some (SseEvent.citations []) ∧
    (event_generator [] [some "hi", none, some ""] none).getLast? =
      some SseEvent.done ∧
    (event_generator [] [some "hi"] (some "boom")).getLast? =
      some (SseEvent.error "boom") :=
  ⟨(event_generator_spec [] [some "hi", none, some ""] none).1,
   ((event_generator_spec [] [some "hi", none, some ""] none).2.1 rfl).1,
   ((event_generator_spec [] [some "hi"] (some "boom")).2.2 "boom" rfl).1⟩

/-- Claim C9: a chat response carries at most 4 citations (exactly 4 when at least
4 chunks were retrieved internally), and each citation's excerpt is the first
220 characters of the chunk text with `...` appended exactly when the text
exceeds 220 characters — a 220-character text is returned whole with no
ellipsis, a 221-character text gives a 220-character prefix plus `...`. -/
theorem chat_citations_spec :
    (∀ retrieved : List RetrievedItem, (chat_citations retrieved).length ≤ 4) ∧
    (∀ retrieved : List RetrievedItem, 4 ≤ retrieved.length →
      (chat_citations retrieved).length = 4) ∧
    (∀ retrieved : List RetrievedItem,
      chat_citations retrieved = (retrieved.take 4).map (fun item =>
        ⟨item.source, item.chunk_id,
          if item.text.length ≤ 220 then item.text
          else item.text.take 220 ++ "...".toList⟩)) ∧
    (∀ item : RetrievedItem, item.text.length = 220 →
      (chat_citations [item]).map Citation.excerpt = [item.text]) ∧
    (∀ item : RetrievedItem, item.text.length = 221 →
      (chat_citations [item]).map Citation.excerpt =
        [item.text.take 220 ++ "...".toList] ∧
      (item.text.take 220).length = 220) := by
  refine ⟨?_, ?_, ?_, ?_, ?_⟩
  · intro retrieved
    simp [chat_citations, List.length_take]
  · intro retrieved h
    simp [chat_citations, List.length_take]
    omega
  · intro retrieved
    unfold chat_citations
    congr 1
    funext item
    by_cases h : item.text.length ≤ 220
    · simp only [show ¬(220 < item.text.length) by omega, if_false, if_pos h,
        List.append_nil, List.take_of_length_le h]
    · simp only [if_neg h, show 220 < item.text.length by omega, if_true]
  · intro item h
    simp [chat_citations, show ¬(220 < item.text.length) by omega,
      List.take_of_length_le (show item.text.length ≤ 220 by omega)]
  · intro item h
    refine ⟨?_, ?_⟩
    · simp [chat_citations, show (220 : Nat) < item.text.length by omega]
    · simp [List.length_take, h]

theorem chat_citations_spec_witness :
    (chat_citations (List.replicate 5 (RetrievedItem.mk [] [] []))).length = 4 ∧
    (chat_citations [RetrievedItem.mk [] [] (List.replicate 220 'x')]).map
      Citation.excerpt = [List.replicate 220 'x'] ∧
    (chat_citations [RetrievedItem.mk [] [] (List.replicate 221 'x')]).map
      Citation.excerpt = [(List.replicate 221 'x').take 220 ++ "...".toList] :=
  ⟨chat_citations_spec.2.1 _ (by norm_num [List.length_replicate]),
   chat_citations_spec.2.2.2.1 _ (by rw [List.length_replicate]),
   (chat_citations_spec.2.2.2.2 _ (by rw [List.length_replicate])).1⟩

/-- Claim C10: a request whose `X-Admin-Token` header is present with the empty
string as value fails with 401 "Missing X-Admin-Token" (not 403), because the
guard's `if not x_admin_token` treats every falsy value — `None` or `""` —
as an absent credential.  Holds for every configured admin token. -/
theorem admin_guard_empty_value (ADMIN_TOKEN : String) :
    admin_guard ADMIN_TOKEN (some "") =
      Except.error ⟨401, "Missing X-Admin-Token"⟩ := rfl

/-- Claim C6 counterexample: with admin secret "secret", the header value `""` is
present (`some "" ≠ none`) and differs from the secret, yet the guard answers
401 (missing credential), not the 403 the claim requires for a
present-but-unequal header. -/
theorem admin_guard_c6_counterexample :
    (some "" : Option String) ≠ none ∧ ("" : String) ≠ "secret" ∧
    admin_guard "secret" (some "") ≠
      Except.error ⟨403, "Invalid admin token"⟩ ∧
    admin_guard "secret" (some "") =
      Except.error ⟨401, "Missing X-Admin-Token"⟩ := by
  refine ⟨by simp, by decide, ?_, rfl⟩
  intro hcontra
  rw [show admin_guard "secret" (some "") =
    Except.error ⟨401, "Missing X-Admin-Token"⟩ from rfl] at hcontra
  exact absurd (Except.error.inj hcontra) (by decide)

/-- Claim C6 (amended): a request with a falsy `X-Admin-Token` header — absent or
empty — fails with 401 (missing credential); a non-empty header not equal to
the configured admin secret (equality computed by the constant-time
`hmac.compare_digest`, modelled functionally) fails with 403 (invalid
credential); a non-empty header equal to the secret proceeds. -/
theorem admin_guard_spec (ADMIN_TOKEN : String) (x : Option String) :
    (pyTruthy x = false →
      admin_guard ADMIN_TOKEN x = Except.error ⟨401, "Missing X-Admin-Token"⟩) ∧
    (∀ s, x = some s → s ≠ "" → s ≠ ADMIN_TOKEN →
      admin_guard ADMIN_TOKEN x = Except.error ⟨403, "Invalid admin token"⟩) ∧
    (∀ s, x = some s → s ≠ "" → s = ADMIN_TOKEN →
      admin_guard ADMIN_TOKEN x = Except.ok ()) := by
  refine ⟨?_, ?_, ?_⟩
  · intro h
    simp [admin_guard, h]
  · intro s hx h1 h2
    subst hx
    simp [admin_guard, pyTruthy, compare_digest, h1, h2]
  · intro s hx h1 h2
    subst hx
    subst h2
    simp [admin_guard, pyTruthy, compare_digest, h1]

theorem admin_guard_spec_witness :
    admin_guard "tok" none = Except.error ⟨401, "Missing X-Admin-Token"⟩ ∧
    admin_guard "tok" (some "bad") =
      Except.error ⟨403, "Invalid admin token"⟩ ∧
    admin_guard "tok" (some "tok") = Except.ok () :=
  ⟨(admin_guard_spec "tok" none).1 rfl,
   (admin_guard_spec "tok" (some "bad")).2.1 "bad" rfl (by decide) (by decide),
   (admin_guard_spec "tok" (some "tok")).2.2 "tok" rfl (by decide) rfl⟩

/-- Claim C2: an index whose tokenized corpus is the tokenization of its chunk
texts — as every index built by `build_index_from_dir` is — survives a
save/load round trip unchanged: the reloaded chunk list is identical in id,
source, text and order, and retrieval with any (deterministic) ranking model,
query and result count returns the same chunk identifiers in the same
order. -/
theorem save_load_roundtrip :
    (∀ (docs : List (Str × Str)) (chunk_size overlap : Int),
      (build_index_from_docs docs chunk_size overlap).tokenized =
        (build_index_from_docs docs chunk_size overlap).chunks.map
          (fun c => tokenize c.text)) ∧
    (∀ idx : RagIndex,
      idx.tokenized = idx.chunks.map (fun c => tokenize c.text) →
      load_index (save_index idx) = idx ∧
      ∀ (bm25 : List (List Str) → List Str → List ℚ) (query : Str)
        (top_k : Nat),
        ((load_index (save_index idx)).retrieve bm25 query top_k).map
            (fun p => p.1.id) =
          (idx.retrieve bm25 query top_k).map (fun p => p.1.id)) := by
  refine ⟨fun docs cs ov => rfl, ?_⟩
  intro idx h
  have hmk : (fun c : RagChunk => RagChunk.mk c.id c.source c.text) = id :=
    funext fun c => rfl
  have hload : load_index (save_index idx) = idx := by
    cases idx with
    | mk chunks tokenized =>
      unfold load_index save_index
      dsimp only at h ⊢
      simp only [List.map_map, hmk, Function.comp_id, Function.id_comp,
        List.map_id, h]
  exact ⟨hload, fun bm25 query top_k => by rw [hload]⟩

theorem save_load_roundtrip_witness :
    load_index (save_index
      ⟨[⟨"a.pdf:0".toList, "a.pdf".toList, "Hi there".toList⟩],
        [tokenize "Hi there".toList]⟩) =
      ⟨[⟨"a.pdf:0".toList, "a.pdf".toList, "Hi there".toList⟩],
        [tokenize "Hi there".toList]⟩ :=
  (save_load_roundtrip.2 _ rfl).1

theorem chunkWindows_cover (n cs ov : Nat) (_hcs : 0 < cs) (hov : ov < cs) :
    ∀ fuel i, n - i < fuel → ∀ p, i ≤ p → p < n →
      ∃ w ∈ chunkWindows n cs ov fuel i, w.1 ≤ p ∧ p < w.2 := by
  intro fuel
  induction fuel with
  | zero => intro i h; omega
  | succ fuel ih =>
    intro i h p hip hpn
    rw [chunkWindows]
    have hin : i < n := by omega
    simp only [hin, if_true]
    by_cases he : n ≤ min n (i + cs)
    · simp only [he, if_true]
      exact ⟨(i, min n (i + cs)), List.mem_singleton_self _, hip, by omega⟩
    · simp only [he, if_false]
      have hmin : min n (i + cs) = i + cs := by omega
      by_cases hpe : p < min n (i + cs)
      · exact ⟨(i, min n (i + cs)), List.mem_cons_self _ _, hip, hpe⟩
      · rw [hmin] at he hpe
        obtain ⟨w, hw, hw1, hw2⟩ :=
          ih (min n (i + cs) - ov) (by rw [hmin]; omega) p
            (by rw [hmin]; omega) hpn
        exact ⟨w, List.mem_cons_of_mem _ hw, hw1, hw2⟩

theorem chunkLoop_eq_windows (text : Str) (cs ov : Nat) :
    ∀ fuel i l, chunkLoop text cs ov fuel i = some l →
      l = (chunkWindows text.length cs ov fuel i).filterMap (fun w =>
        if pyStrip (pySlice text w.1 w.2) = [] then none
        else some (pyStrip (pySlice text w.1 w.2))) := by
  intro fuel
  induction fuel with
  | zero => intro i l h; simp [chunkLoop] at h
  | succ fuel ih =>
    intro i l h
    rw [chunkLoop] at h
    rw [chunkWindows]
    by_cases hin : i < text.length
    · simp only [hin, if_true] at h ⊢
      by_cases he : text.length ≤ min text.length (i + cs)
      · simp only [he, if_true] at h ⊢
        by_cases hc : pyStrip (pySlice text i (min text.length (i + cs))) = []
        · simp only [hc, if_pos rfl] at h
          simp only [List.filterMap, hc, if_pos rfl]
          exact (Option.some.inj h).symm
        · simp only [if_neg hc] at h
          simp only [List.filterMap, if_neg hc]
          exact (Option.some.inj h).symm
      · simp only [he, if_false] at h ⊢
        cases hx : chunkLoop text cs ov fuel (min text.length (i + cs) - ov) with
        | none => rw [hx] at h; exact absurd h (by simp)
        | some rest =>
          rw [hx] at h
          have hrest := ih _ rest hx
          by_cases hc : pyStrip (pySlice text i (min text.length (i + cs))) = []
          · simp only [hc, if_pos rfl] at h
            rw [List.filterMap_cons]
            simp only [hc, if_pos rfl]
            rw [← hrest]
            exact (Option.some.inj h).symm
          · simp only [if_neg hc] at h
            rw [List.filterMap_cons]
            simp only [if_neg hc]
            rw [← hrest]
            exact (Option.some.inj h).symm
    · simp only [hin, if_false] at h ⊢
      simp only [List.filterMap_nil]
      exact (Option.some.inj h).symm

/-- Claim C3 (amended): for every non-empty text and chunk size > 0 (any overlap,
clamped as in C4), the untrimmed windows taken by the `chunk_text` loop cover
every character position of the input; with chunk size 1100 and overlap 180 a
2500-character input is processed in exactly 3 windows, the third ending
exactly at position 2500; the emitted chunks are these windows' texts trimmed
of whitespace with empty results dropped — so a 2500-character input yields
at most 3 chunks (exactly 3 iff no window trims to empty, which all-whitespace
windows violate). -/
theorem chunk_text_coverage :
    (∀ (text : Str) (chunk_size overlap : Int), 0 < chunk_size →
      ∀ p, p < text.length →
        ∃ w ∈ chunkWindows text.length (clampParams chunk_size overlap).1
          (clampParams chunk_size overlap).2 (text.length + 1) 0,
          w.1 ≤ p ∧ p < w.2) ∧
    chunkWindows 2500 1100 180 2501 0 = [(0, 1100), (920, 2020), (1840, 2500)] ∧
    (∀ (text : Str) (chunk_size overlap : Int), text ≠ [] → 0 < chunk_size →
      chunk_text text chunk_size overlap =
        (chunkWindows text.length (clampParams chunk_size overlap).1
          (clampParams chunk_size overlap).2 (text.length + 1) 0).filterMap
          (fun w => if pyStrip (pySlice text w.1 w.2) = [] then none
            else some (pyStrip (pySlice text w.1 w.2)))) ∧
    (∀ text : Str, text.length = 2500 →
      (chunk_text text 1100 180).length ≤ 3) := by
  have hlink : ∀ (text : Str) (chunk_size overlap : Int), text ≠ [] →
      0 < chunk_size →
      chunk_text text chunk_size overlap =
        (chunkWindows text.length (clampParams chunk_size overlap).1
          (clampParams chunk_size overlap).2 (text.length + 1) 0).filterMap
          (fun w => if pyStrip (pySlice text w.1 w.2) = [] then none
            else some (pyStrip (pySlice text w.1 w.2))) := by
    intro text cs ov ht hcs
    have hsome := chunkLoop_isSome text (clampParams cs ov).1
      (clampParams cs ov).2 (by rw [clampParams_fst]; omega)
      (clampParams_snd_lt _ _ hcs) (text.length + 1) 0 (by omega)
    obtain ⟨l, hl⟩ := Option.isSome_iff_exists.mp hsome
    rw [chunk_text, if_neg ht, if_neg (by omega)]
    dsimp only
    rw [hl, Option.getD_some]
    exact chunkLoop_eq_windows text _ _ _ _ l hl
  refine ⟨?_, by decide, hlink, ?_⟩
  · intro text cs ov hcs p hp
    exact chunkWindows_cover text.length (clampParams cs ov).1
      (clampParams cs ov).2 (by rw [clampParams_fst]; omega)
      (clampParams_snd_lt _ _ hcs)
      (text.length + 1) 0 (by omega) p (Nat.zero_le p) hp
  · intro text hlen
    have ht : text ≠ [] := by
      intro h
      rw [h] at hlen
      simp at hlen
    rw [hlink text 1100 180 ht (by norm_num)]
    calc ((chunkWindows text.length (clampParams 1100 180).1
            (clampParams 1100 180).2 (text.length + 1) 0).filterMap _).length
        ≤ (chunkWindows text.length (clampParams 1100 180).1
            (clampParams 1100 180).2 (text.length + 1) 0).length :=
          List.length_filterMap_le _ _
      _ = 3 := by rw [hlen]; decide

theorem pyStrip_replicate_space (k : Nat) :
    pyStrip (List.replicate k ' ') = [] := by
  unfold pyStrip
  have h : List.dropWhile isPySpace (List.replicate k ' ') = [] := by
    induction k with
    | zero => rfl
    | succ k ih => simp [List.replicate_succ, List.dropWhile_cons, isPySpace, ih]
  rw [h]
  rfl

theorem chunkLoop_all_space (n cs ov : Nat) :
    ∀ fuel i l, chunkLoop (List.replicate n ' ') cs ov fuel i = some l →
      l = [] := by
  intro fuel
  induction fuel with
  | zero => intro i l h; simp [chunkLoop] at h
  | succ fuel ih =>
    intro i l h
    rw [chunkLoop] at h
    have hslice : ∀ e : Nat, pyStrip (pySlice (List.replicate n ' ') i e) = [] := by
      intro e
      unfold pySlice
      rw [List.drop_replicate, List.take_replicate, pyStrip_replicate_space]
    by_cases hin : i < (List.replicate n ' ' : Str).length
    · simp only [hin, if_true, hslice, if_pos rfl] at h
      by_cases he : (List.replicate n ' ' : Str).length ≤
          min (List.replicate n ' ' : Str).length (i + cs)
      · simp only [he, if_true] at h
        exact (Option.some.inj h).symm
      · simp only [he, if_false] at h
        cases hx : chunkLoop (List.replicate n ' ') cs ov fuel
            (min (List.replicate n ' ' : Str).length (i + cs) - ov) with
        | none => rw [hx] at h; exact absurd h (by simp)
        | some rest =>
          rw [hx] at h
          rw [← ih _ rest hx]
          exact (Option.some.inj h).symm
    · simp only [hin, if_false] at h
      exact (Option.some.inj h).symm

/-- Claim C3 counterexample: the 2500-character input consisting entirely of spaces
is processed with chunk size 1100 and overlap 180 into zero chunks, not the 3
the claim asserts for every 2500-character input — each of the 3 windows
trims to the empty string and is dropped by the loop's `if chunk:` guard. -/
theorem chunk_text_2500_spaces_counterexample :
    (List.replicate 2500 ' ' : Str).length = 2500 ∧
    chunk_text (List.replicate 2500 ' ') 1100 180 = [] ∧
    (chunk_text (List.replicate 2500 ' ') 1100 180).length ≠ 3 := by
  have hempty : chunk_text (List.replicate 2500 ' ') 1100 180 = [] := by
    rw [chunk_text, if_neg (by simp), if_neg (by norm_num)]
    dsimp only
    cases hx : chunkLoop (List.replicate 2500 ' ') (clampParams 1100 180).1
        (clampParams 1100 180).2 ((List.replicate 2500 ' ' : Str).length + 1)
        0 with
    | none => rw [Option.getD_none]
    | some l =>
      rw [Option.getD_some]
      exact chunkLoop_all_space 2500 _ _ _ _ l hx
  refine ⟨List.length_replicate 2500 ' ', hempty, ?_⟩
  rw [hempty]
  simp

theorem chunk_text_coverage_witness :
    (∃ w ∈ chunkWindows ("hello".toList.length) (clampParams 3 1).1
      (clampParams 3 1).2 ("hello".toList.length + 1) 0, w.1 ≤ 4 ∧ 4 < w.2) ∧
    chunk_text "ab".toList 1 0 =
      (chunkWindows "ab".toList.length (clampParams 1 0).1 (clampParams 1 0).2
        ("ab".toList.length + 1) 0).filterMap
        (fun w => if pyStrip (pySlice "ab".toList w.1 w.2) = [] then none
          else some (pyStrip (pySlice "ab".toList w.1 w.2))) ∧
    (chunk_text (List.replicate 2500 'a') 1100 180).length ≤ 3 :=
  ⟨chunk_text_coverage.1 "hello".toList 3 1 (by norm_num) 4 (by decide),
   chunk_text_coverage.2.2.1 "ab".toList 1 0 (by decide) (by norm_num),
   chunk_text_coverage.2.2.2 _ (by rw [List.length_replicate])⟩

theorem pair_sublist_of_get {α : Type} :
    ∀ (s : List α) (p q : Nat) (hpq : p < q) (hq : q < s.length),
      List.Sublist [s.get ⟨p, by omega⟩, s.get ⟨q, hq⟩] s := by
  intro s
  induction s with
  | nil => intro p q hpq hq; simp at hq
  | cons a t ih =>
    intro p q hpq hq
    cases p with
    | zero =>
      cases q with
      | zero => omega
      | succ q2 =>
        exact List.Sublist.cons₂ a
          (List.singleton_sublist.mpr (List.get_mem t q2 (by simpa using hq)))
    | succ p2 =>
      cases q with
      | zero => omega
      | succ q2 =>
        exact (ih p2 q2 (by omega) (by simpa using hq)).cons a

theorem exists_get_of_pair_sublist {α : Type} {a b : α} :
    ∀ {s : List α}, List.Sublist [a, b] s →
      ∃ (p q : Nat) (hpq : p < q) (hq : q < s.length),
        s.get ⟨p, by omega⟩ = a ∧ s.get ⟨q, hq⟩ = b := by
  intro s
  induction s with
  | nil => intro h; simp at h
  | cons x t ih =>
    intro h
    cases h with
    | cons _ h2 =>
      obtain ⟨p, q, hpq, hq, ha, hb⟩ := ih h2
      exact ⟨p + 1, q + 1, by omega, by simpa using Nat.succ_lt_succ hq,
        ha, hb⟩
    | cons₂ _ h2 =>
      obtain ⟨⟨qb, hqb⟩, hbe⟩ := List.get_of_mem (List.singleton_sublist.mp h2)
      exact ⟨0, qb + 1, Nat.succ_pos qb,
        by simpa using Nat.succ_lt_succ hqb, rfl, hbe⟩

theorem pairwise_mergeSortRanked (scores : List ℚ) :
    ((scores.enum).mergeSort (fun a b => decide (b.2 ≤ a.2))).Pairwise
      (fun a b => b.2 < a.2 ∨ (a.2 = b.2 ∧ a.1 < b.1)) := by
  have trans : ∀ a b c : Nat × ℚ,
      (fun a b : Nat × ℚ => decide (b.2 ≤ a.2)) a b →
      (fun a b : Nat × ℚ => decide (b.2 ≤ a.2)) b c →
      (fun a b : Nat × ℚ => decide (b.2 ≤ a.2)) a c := by
    intro a b c h1 h2
    simp only [decide_eq_true_eq] at h1 h2 ⊢
    exact le_trans h2 h1
  have total : ∀ a b : Nat × ℚ,
      ((fun a b : Nat × ℚ => decide (b.2 ≤ a.2)) a b ||
        (fun a b : Nat × ℚ => decide (b.2 ≤ a.2)) b a) := by
    intro a b
    simp only [Bool.or_eq_true, decide_eq_true_eq]
    exact le_total b.2 a.2
  set s := (scores.enum).mergeSort (fun a b : Nat × ℚ => decide (b.2 ≤ a.2))
    with hsdef
  have hsorted := List.sorted_mergeSort trans total scores.enum
  have hperm : List.Perm s scores.enum :=
    List.mergeSort_perm scores.enum (fun a b : Nat × ℚ => decide (b.2 ≤ a.2))
  have hnd : s.Nodup := by
    have h1 : (scores.enum).Nodup :=
      List.Nodup.of_map Prod.fst
        (by rw [List.enum_map_fst]; exact List.nodup_range _)
    exact h1.perm hperm.symm
  rw [List.pairwise_iff_getElem]
  intro i j hi hj hij
  have hab : s[j].2 ≤ s[i].2 := by
    have := List.pairwise_iff_getElem.mp hsorted i j hi hj hij
    simpa using this
  rcases eq_or_lt_of_le hab with heq | hlt
  · right
    refine ⟨heq.symm, ?_⟩
    have hmi : s[i] ∈ scores.enum := hperm.subset (List.getElem_mem hi)
    have hmj : s[j] ∈ scores.enum := hperm.subset (List.getElem_mem hj)
    have ei := List.mem_enum_iff_getElem?.mp hmi
    have ej := List.mem_enum_iff_getElem?.mp hmj
    obtain ⟨hbi, hei⟩ := List.getElem?_eq_some.mp ei
    obtain ⟨hbj, hej⟩ := List.getElem?_eq_some.mp ej
    rcases Nat.lt_trichotomy (s[i].1) (s[j].1) with h | h | h
    · exact h
    · exfalso
      have hsame : s[i] = s[j] := Prod.ext h heq.symm
      exact absurd (hnd.getElem_inj_iff.mp hsame) (by omega)
    · exfalso
      have hqbound : s[i].1 < (scores.enum).length := by
        rw [List.enum_length]
        exact hbi
      have hpair := pair_sublist_of_get scores.enum (s[j].1) (s[i].1) h hqbound
      have hgj : (scores.enum).get ⟨s[j].1, by omega⟩ = s[j] := by
        rw [List.get_eq_getElem, List.getElem_enum]
        exact Prod.ext rfl hej
      have hgi : (scores.enum).get ⟨s[i].1, hqbound⟩ = s[i] := by
        rw [List.get_eq_getElem, List.getElem_enum]
        exact Prod.ext rfl hei
      rw [hgj, hgi] at hpair
      have hle : (fun a b : Nat × ℚ => decide (b.2 ≤ a.2)) (s[j]) (s[i]) := by
        simp only [decide_eq_true_eq]
        exact le_of_eq heq.symm
      have hstab := List.pair_sublist_mergeSort trans total hle hpair
      rw [← hsdef] at hstab
      obtain ⟨p, q, hpq, hqlt, hpe, hqe⟩ := exists_get_of_pair_sublist hstab
      rw [List.get_eq_getElem] at hpe hqe
      have hp : p = j := hnd.getElem_inj_iff.mp hpe
      have hq2 : q = i := hnd.getElem_inj_iff.mp hqe
      omega
  · exact Or.inl hlt

theorem retrieveRanked_pairwise (scores : List ℚ) (top_k : Nat) :
    (retrieveRanked scores top_k).Pairwise
      (fun a b => b.2 < a.2 ∨ (a.2 = b.2 ∧ a.1 < b.1)) :=
  List.Pairwise.sublist
    ((List.filter_sublist _).trans (List.take_sublist _ _))
    (pairwise_mergeSortRanked scores)

/-- Claim C1: `retrieve` returns `[]` when the index has no chunks or the tokenized
query is empty; otherwise it returns at most `top_k` (chunk, score) pairs,
every returned score is strictly positive (candidates scoring ≤ 0 are
dropped, so fewer than `top_k` results — including none — are possible), and
the results follow the ranked (index, score) list, which is ordered by score
strictly descending with ties broken by ascending original chunk index (the
stable sort over enumerated scores compares scores only). -/
theorem retrieve_spec (bm25 : List (List Str) → List Str → List ℚ)
    (idx : RagIndex) (query : Str) (top_k : Nat) :
    (idx.chunks = [] → idx.retrieve bm25 query top_k = []) ∧
    (tokenize query = [] → idx.retrieve bm25 query top_k = []) ∧
    (idx.retrieve bm25 query top_k).length ≤ top_k ∧
    (∀ pr ∈ idx.retrieve bm25 query top_k, 0 < pr.2) ∧
    (retrieveRanked (bm25 idx.tokenized (tokenize query)) top_k).Pairwise
      (fun a b => b.2 < a.2 ∨ (a.2 = b.2 ∧ a.1 < b.1)) ∧
    (idx.chunks ≠ [] → tokenize query ≠ [] →
      idx.retrieve bm25 query top_k =
        (retrieveRanked (bm25 idx.tokenized (tokenize query)) top_k).map
          (fun p => (idx.chunks.getD p.1 ⟨[], [], []⟩, p.2))) := by
  have hlen : ∀ scores : List ℚ, (retrieveRanked scores top_k).length ≤ top_k := by
    intro scores
    calc (retrieveRanked scores top_k).length
        ≤ (((scores.enum).mergeSort
            (fun a b => decide (b.2 ≤ a.2))).take top_k).length :=
          List.length_filter_le _ _
      _ ≤ top_k := by rw [List.length_take]; omega
  refine ⟨?_, ?_, ?_, ?_, retrieveRanked_pairwise _ _, ?_⟩
  · intro h
    simp [RagIndex.retrieve, h]
  · intro h
    simp [RagIndex.retrieve, h]
  · rw [RagIndex.retrieve]
    by_cases h1 : idx.chunks = []
    · simp [h1]
    · rw [if_neg h1]
      dsimp only
      by_cases h2 : tokenize query = []
      · simp [h2]
      · rw [if_neg h2, List.length_map]
        exact hlen _
  · intro pr hpr
    rw [RagIndex.retrieve] at hpr
    by_cases h1 : idx.chunks = []
    · rw [if_pos h1] at hpr
      simp at hpr
    · rw [if_neg h1] at hpr
      dsimp only at hpr
      by_cases h2 : tokenize query = []
      · rw [if_pos h2] at hpr
        simp at hpr
      · rw [if_neg h2] at hpr
        obtain ⟨q, hq, rfl⟩ := List.mem_map.mp hpr
        unfold retrieveRanked at hq
        have hpos := (List.mem_filter.mp hq).2
        have : ¬(q.2 ≤ 0) := by simpa using hpos
        exact lt_of_not_le this
  · intro h1 h2
    rw [RagIndex.retrieve, if_neg h1]
    dsimp only
    rw [if_neg h2]

theorem retrieve_spec_witness :
    RagIndex.retrieve (fun _ _ => [0, 2, 1]) ⟨[], []⟩ "term".toList 2 = [] ∧
    RagIndex.retrieve (fun _ _ => [0, 2, 1])
      ⟨[⟨"a".toList, "a".toList, "A".toList⟩,
        ⟨"b".toList, "b".toList, "B".toList⟩,
        ⟨"c".toList, "c".toList, "C".toList⟩], []⟩ "!?.".toList 2 = [] ∧
    RagIndex.retrieve (fun _ _ => [0, 2, 1])
      ⟨[⟨"a".toList, "a".toList, "A".toList⟩,
        ⟨"b".toList, "b".toList, "B".toList⟩,
        ⟨"c".toList, "c".toList, "C".toList⟩], []⟩ "term".toList 2 =
      (retrieveRanked [0, 2, 1] 2).map
        (fun p => (([⟨"a".toList, "a".toList, "A".toList⟩,
          ⟨"b".toList, "b".toList, "B".toList⟩,
          ⟨"c".toList, "c".toList, "C".toList⟩] : List RagChunk).getD p.1
            ⟨[], [], []⟩, p.2)) :=
  ⟨(retrieve_spec _ _ _ _).1 rfl,
   (retrieve_spec _ _ _ _).2.1 (by decide),
   (retrieve_spec _ _ _ _).2.2.2.2.2 (by decide) (by decide)⟩
